import Mathlib

/-!
Verification of the `wl` wire codec (`src/wire.go`).

The Go code is shallowly embedded: the payload of a message is a list of
bytes (`List Nat`, each entry < 256 in every buffer considered) together
with a read cursor, mirroring `bytes.Reader`; `uint32` arithmetic is `Nat`
with explicit `% 2 ^ 32`; Go `int`/`int32` are `Int` with explicit
two's-complement wrapping; Go runtime panics are distinguished error
values, separate from returned `error`s.
-/

namespace WL

/-- Two's-complement wrap of an integer to signed 32 bits
(the Go conversion `int32(x)`). -/
def wrap32 (x : Int) : Int := (x + 2 ^ 31) % 2 ^ 32 - 2 ^ 31

/-- Two's-complement wrap of an integer to signed 64 bits
(overflow of Go `int` arithmetic). -/
def wrap64 (x : Int) : Int := (x + 2 ^ 63) % 2 ^ 64 - 2 ^ 63

/-- Reinterpret an unsigned 32-bit value as signed (a Go `int32` read
back from its 4-byte memory representation). -/
def toSigned32 (v : Nat) : Int := if v < 2 ^ 31 then (v : Int) else (v : Int) - 2 ^ 32

/-- The unsigned 32-bit value stored little-endian as four bytes
(`binary.LittleEndian`, the host order modelled throughout). -/
def u32FromBytes (b0 b1 b2 b3 : Nat) : Nat :=
  b0 + b1 * 256 + b2 * 65536 + b3 * 16777216

/-- The four little-endian bytes of an unsigned 32-bit value. -/
def encodeU32 (n : Nat) : List Nat :=
  [n % 256, n / 256 % 256, n / 65536 % 256, n / 16777216 % 256]

/-- Error outcomes of the decoder.  Constructors starting with `panic`
model Go runtime panics (crashes), the others model returned `error`
values. -/
inductive DecErr where
  /-- Short read: `io.EOF` / `io.ErrUnexpectedEOF`. -/
  | eof
  /-- The error `errors.New("string is not null-terminated")` (wire.go:145). -/
  | notNullTerminated
  /-- The error `errors.New("no more file descriptors")` (wire.go:172). -/
  | noMoreFds
  /-- Go runtime panic: index out of range (wire.go:144 with `length == 0`,
  where `length-1` underflows in `uint32`). -/
  | panicIndexOOB
  /-- Panic raised by `slices.Grow` when its growth count is negative
  (wire.go:160 computes the count as `len(*val) - int(length+pad)`). -/
  | panicGrowNeg
  /-- Panic raised by a slice expression with an out-of-range bound. -/
  | panicSliceOOB
  /-- The `default` branch of `Decode` (wire.go:180):
  `panic(fmt.Errorf("unexpected type: %T", val))`. -/
  | panicUnexpectedType
  deriving Repr, DecidableEq

/-- Structure `MessageBuffer` (wire.go:42-49): a framed message.
`data`/`pos` model the `bytes.Reader` over the payload. -/
structure MessageBuffer where
  sender : Nat
  op : Nat
  size : Nat
  data : List Nat
  pos : Nat
  fds : List Int
  fdindex : Nat
  deriving Repr, DecidableEq

/-- A `binary.Read` of a `uint32` from the buffer's `bytes.Reader`:
reads four little-endian bytes, or fails having drained the reader. -/
def readU32 (b : MessageBuffer) : Except DecErr Nat × MessageBuffer :=
  match b.data.drop b.pos with
  | b0 :: b1 :: b2 :: b3 :: _ =>
      (.ok (u32FromBytes b0 b1 b2 b3), { b with pos := b.pos + 4 })
  | _ => (.error .eof, { b with pos := b.data.length })

/-- An `io.CopyN`/`io.ReadFull` of `n` bytes from the buffer's reader:
yields exactly `n` bytes, or fails (short read) having drained the
reader. -/
def copyN (n : Nat) (b : MessageBuffer) : Except DecErr (List Nat) × MessageBuffer :=
  let rem := b.data.drop b.pos
  if n ≤ rem.length then (.ok (rem.take n), { b with pos := b.pos + n })
  else (.error .eof, { b with pos := b.data.length })

/-- The `case *string` branch of `Decode` (wire.go:130-149): read a
4-byte length, `pad := length % 4`, copy `length+pad` bytes (`uint32`
addition, hence the `% 2 ^ 32`), demand a null byte at index `length-1`
(`uint32` subtraction: for `length = 0` the index wraps to `2^32 - 1` and
the Go string index panics), and return the first `length-1` bytes. -/
def decodeString (b : MessageBuffer) : Except DecErr (List Nat) × MessageBuffer :=
  match readU32 b with
  | (.error e, b1) => (.error e, b1)
  | (.ok length, b1) =>
    let pad := length % 4
    let cnt := (length + pad) % 2 ^ 32
    match copyN cnt b1 with
    | (.error e, b2) => (.error e, b2)
    | (.ok s, b2) =>
      let idx := (length + 2 ^ 32 - 1) % 2 ^ 32
      if h : idx < s.length then
        if s[idx] ≠ 0 then (.error .notNullTerminated, b2)
        else (.ok (s.take idx), b2)
      else (.error .panicIndexOOB, b2)

/-- The `case *[]byte` branch of `Decode` (wire.go:151-168).  `val` is
the caller-supplied destination slice (its contents; capacity is not
modelled because the grow branch panics before it could matter): when
`len(val) < length+pad` the code calls
`slices.Grow(val, len(val)-int(length+pad))` whose count is negative, a
panic; otherwise `io.ReadFull` fills all `len(val)` bytes of the
destination and the first `length` of them are returned. -/
def decodeBytes (val : List Nat) (b : MessageBuffer) :
    Except DecErr (List Nat) × MessageBuffer :=
  match readU32 b with
  | (.error e, b1) => (.error e, b1)
  | (.ok length, b1) =>
    let pad := length % 4
    let cnt := (length + pad) % 2 ^ 32
    if val.length < cnt then (.error .panicGrowNeg, b1)
    else
      match copyN val.length b1 with
      | (.error e, b2) => (.error e, b2)
      | (.ok s, b2) =>
        if length ≤ s.length then (.ok (s.take length), b2)
        else (.error .panicSliceOOB, b2)

/-- The `case **os.File` branch of `Decode` (wire.go:170-177): hand out
`fds[fdindex]` and advance `fdindex`, or fail when the list is
exhausted. -/
def decodeFile (b : MessageBuffer) : Except DecErr Int × MessageBuffer :=
  if h : b.fdindex < b.fds.length then
    (.ok b.fds[b.fdindex], { b with fdindex := b.fdindex + 1 })
  else (.error .noMoreFds, b)

/-- Runtime type of the pointer handed to `Decode`, restricted to the
types its doc comment (wire.go:112-124) declares supported. -/
inductive ArgType where
  | i32
  | u32
  | fixed
  | str
  | byteSlice
  | newID
  | file
  | slice (elem : ArgType)
  deriving Repr, DecidableEq

/-- A decoded argument value. -/
inductive DecodedVal where
  | i32 (v : Int)
  | u32 (v : Nat)
  | fixed (v : Int)
  | str (s : List Nat)
  | bytes (s : List Nat)
  | file (fd : Int)
  deriving Repr, DecidableEq

/-- Function `Decode` (wire.go:125-182): the type switch.  `dest` is the
destination slice contents for the `*[]byte` case (ignored otherwise).
The switch has cases only for `*int32`, `*uint32`, `*Fixed`, `*string`,
`*[]byte` and `**os.File`; every other type — including `*NewID` and all
slice types except `*[]byte` — falls to `default:
panic(fmt.Errorf("unexpected type: %T", val))`. -/
def Decode (t : ArgType) (dest : List Nat) (b : MessageBuffer) :
    Except DecErr DecodedVal × MessageBuffer :=
  match t with
  | .i32 =>
      match readU32 b with
      | (.error e, b1) => (.error e, b1)
      | (.ok v, b1) => (.ok (.i32 (toSigned32 v)), b1)
  | .u32 =>
      match readU32 b with
      | (.error e, b1) => (.error e, b1)
      | (.ok v, b1) => (.ok (.u32 v), b1)
  | .fixed =>
      match readU32 b with
      | (.error e, b1) => (.error e, b1)
      | (.ok v, b1) => (.ok (.fixed (toSigned32 v)), b1)
  | .str =>
      match decodeString b with
      | (.error e, b1) => (.error e, b1)
      | (.ok s, b1) => (.ok (.str s), b1)
  | .byteSlice =>
      match decodeBytes dest b with
      | (.error e, b1) => (.error e, b1)
      | (.ok s, b1) => (.ok (.bytes s), b1)
  | .file =>
      match decodeFile b with
      | (.error e, b1) => (.error e, b1)
      | (.ok fd, b1) => (.ok (.file fd), b1)
  | .newID => (.error .panicUnexpectedType, b)
  | .slice _ => (.error .panicUnexpectedType, b)

/-- Read a `uint32` from the head of a raw byte stream (little-endian),
used by the framer. -/
def takeU32 : List Nat → Option (Nat × List Nat)
  | b0 :: b1 :: b2 :: b3 :: rest => some (u32FromBytes b0 b1 b2 b3, rest)
  | _ => none

/-- Function `ReadMessage` (wire.go:52-95) restricted to its byte-stream
part: `stream` is the in-band byte stream of the socket, `fds` the
descriptor list already parsed from the ancillary data (the
control-message parsing is kernel-level and not modelled).  Reads the
4-byte sender, the 4-byte word packing `size` (high 16 bits) and `op`
(low 16 bits), then `io.CopyN(data, r, int64(mr.size)-8)`: for
`size ≤ 8` `CopyN` with a non-positive count returns `(0, nil)` —
success with an empty payload — and otherwise exactly `size-8` bytes
are copied, a short stream being an error.  Returns the buffer and the
unconsumed stream. -/
def ReadMessage (stream : List Nat) (fds : List Int) :
    Except DecErr (MessageBuffer × List Nat) :=
  match takeU32 stream with
  | none => .error .eof
  | some (sender, s1) =>
    match takeU32 s1 with
    | none => .error .eof
    | some (so, s2) =>
      let size := so / 65536
      let op := so % 65536
      if size ≤ 8 then
        .ok (⟨sender, op, size, [], 0, fds, 0⟩, s2)
      else if size - 8 ≤ s2.length then
        .ok (⟨sender, op, size, s2.take (size - 8), 0, fds, 0⟩, s2.drop (size - 8))
      else .error .eof

/-- Function `FixedInt` (wire.go:188-190): `Fixed(v << 8)` — shift in
64-bit `int` arithmetic, then conversion to the 32-bit `Fixed`. -/
def FixedInt (v : Int) : Int := wrap32 (wrap64 (v * 256))

/-- Method `Fixed.Int` (wire.go:197-199): arithmetic right shift of an
`int32` by 8, i.e. floor division by 256 (`/` on `Int` is Euclidean
division, which coincides with floor division for a positive divisor). -/
def FixedIntPart (f : Int) : Int := f / 256

/-- Method `Fixed.Frac` (wire.go:201-203): `uint32(f) & 0xFF`. -/
def FixedFrac (f : Int) : Int := f % 2 ^ 32 % 256

/-- Method `Fixed.Float` (wire.go:205-209):
`float64(i) + |float64(frac) * 2^-8|`.  All the `float64` operations
involved are exact for every `Fixed` input (at most 24 integer bits plus
8 fractional bits of significand, well under the 53 of a `float64`), so
the function is modelled exactly over `ℚ`. -/
def FixedFloatVal (f : Int) : ℚ :=
  (FixedIntPart f : ℚ) + |(FixedFrac f : ℚ) * (1 / 256)|

/-- The integer part produced by `math.Modf`: truncation toward zero. -/
def ratTrunc (q : ℚ) : Int := if 0 ≤ q then ⌊q⌋ else ⌈q⌉

/-- Two's-complement (unsigned) representation of a 64-bit `int`. -/
def twos64 (x : Int) : Nat := (x % 2 ^ 64).toNat

/-- Signed value of a 64-bit two's-complement representation. -/
def ofTwos64 (n : Nat) : Int := if n < 2 ^ 63 then (n : Int) else (n : Int) - 2 ^ 64

/-- Bitwise `|` on Go 64-bit `int`s, via the two's-complement
representations. -/
def goOr64 (x y : Int) : Int := ofTwos64 (Nat.lor (twos64 x) (twos64 y))

/-- Function `FixedFloat` (wire.go:192-195): `i, frac := math.Modf(v)`
(exact in `float64`, so modelled exactly over `ℚ`), then
`Fixed((int(i) << 8) | int(math.Abs(frac)*math.Exp2(8)))`;
`math.Abs(frac)*256` is exact (scaling by a power of two), and the Go
`int(...)` conversion truncates toward zero, which on this non-negative
quantity is the floor. -/
def FixedFloat (q : ℚ) : Int :=
  let i : Int := ratTrunc q
  let frac : ℚ := q - (i : ℚ)
  wrap32 (goOr64 (wrap64 (i * 256)) (⌊|frac| * 256⌋))

/-- Modelled from the spec: the `from_float` described by §4.3 of the
spec, identical to `FixedFloat` except that the fractional bits are
`round(|f| * 256)` — "the rounded (not truncated) value" — rather than
the truncation the Go `int(...)` conversion performs.  Present only to
be compared against the code's `FixedFloat`. -/
def FixedFloatSpec (q : ℚ) : Int :=
  let i : Int := ratTrunc q
  let frac : ℚ := q - (i : ℚ)
  wrap32 (goOr64 (wrap64 (i * 256)) (round (|frac| * 256)))

/-- Reading a `uint32` whose four little-endian bytes sit at the cursor
succeeds with that value and advances the cursor by 4. -/
theorem readU32_encode (b : MessageBuffer) (L : Nat) (t : List Nat)
    (hform : b.data.drop b.pos = encodeU32 L ++ t) (hL : L < 2 ^ 32) :
    readU32 b = (.ok L, { b with pos := b.pos + 4 }) := by
  simp only [encodeU32, List.cons_append, List.nil_append] at hform
  unfold readU32
  rw [hform]
  have hval : u32FromBytes (L % 256) (L / 256 % 256) (L / 65536 % 256) (L / 16777216 % 256)
      = L := by
    unfold u32FromBytes; omega
  simp [hval]

/-- Copying exactly the bytes of a prefix of the remaining data yields
that prefix and advances the cursor past it. -/
theorem copyN_exact (b : MessageBuffer) (u rest : List Nat)
    (hform : b.data.drop b.pos = u ++ rest) :
    copyN u.length b = (.ok u, { b with pos := b.pos + u.length }) := by
  unfold copyN
  rw [hform]
  simp [List.take_left]

/-- After the 4 length bytes, the cursor sees the rest of the field. -/
theorem drop_after_readU32 (b : MessageBuffer) (L : Nat) (t : List Nat)
    (hform : b.data.drop b.pos = encodeU32 L ++ t) :
    b.data.drop (b.pos + 4) = t := by
  rw [← List.drop_drop, hform]
  simp [encodeU32]

/-- C1: for a string decode whose buffer holds a 4-byte length `L ≥ 1`
followed by `L + L % 4` field bytes, the decoder reads `L`, consumes
exactly `L + (L % 4)` further payload bytes (the cursor ends at
`pos + 4 + (L + L % 4)` in both outcomes), fails with the
malformed-string error exactly when the byte at offset `L-1` is not the
null terminator, and on success returns exactly the first `L-1` bytes
(terminator and padding stripped). -/
theorem decodeString_correct (b : MessageBuffer) (L : Nat) (s rest : List Nat)
    (hform : b.data.drop b.pos = encodeU32 L ++ s ++ rest)
    (hL : 1 ≤ L) (hlen : s.length = L + L % 4) (hnw : L + L % 4 < 2 ^ 32) :
    decodeString b =
      (if s.getD (L - 1) 0 = 0 then .ok (s.take (L - 1)) else .error .notNullTerminated,
       { b with pos := b.pos + 4 + (L + L % 4) }) := by
  have hL32 : L < 2 ^ 32 := by omega
  rw [List.append_assoc] at hform
  have h1 := readU32_encode b L (s ++ rest) hform hL32
  have h2 : (({ b with pos := b.pos + 4 } : MessageBuffer)).data.drop (b.pos + 4) = s ++ rest :=
    drop_after_readU32 b L (s ++ rest) hform
  have h3 : copyN ((L + L % 4) % 2 ^ 32) { b with pos := b.pos + 4 } =
      (.ok s, { b with pos := b.pos + 4 + (L + L % 4) }) := by
    rw [Nat.mod_eq_of_lt hnw, ← hlen]
    have := copyN_exact { b with pos := b.pos + 4 } s rest h2
    simpa [hlen] using this
  have hidx : (L + 2 ^ 32 - 1) % 2 ^ 32 = L - 1 := by omega
  have h4 : L - 1 < s.length := by omega
  simp only [decodeString, h1, h3, hidx]
  rw [dif_pos h4]
  by_cases hz : s[L - 1] = 0
  · simp [List.getElem?_eq_getElem h4, hz]
  · simp [List.getElem?_eq_getElem h4, hz]

/-- C1 witness: decoding the string field `L = 2`, bytes `[97, 0]` plus
two padding bytes, returns `[97]` with the cursor moved by `4 + 4`. -/
theorem decodeString_correct_witness :
    decodeString ⟨0, 0, 0, [2, 0, 0, 0, 97, 0, 5, 6], 0, [], 0⟩ =
      (.ok [97], ⟨0, 0, 0, [2, 0, 0, 0, 97, 0, 5, 6], 8, [], 0⟩) := by
  have h := decodeString_correct ⟨0, 0, 0, [2, 0, 0, 0, 97, 0, 5, 6], 0, [], 0⟩ 2
    [97, 0, 5, 6] [] (by decide) (by decide) (by decide) (by decide)
  simpa using h

/-- C2: the padding-to-4-byte-boundary law fails on the code.  For the
length prefix `L = 5` (string "abcd" plus terminator) the decoder
consumes `4 + (5 + 5 % 4) = 10` payload bytes and succeeds, whereas
padding up to the next 4-byte boundary would consume
`4 + 4*((5+3)/4) = 12`: the code's `pad := length % 4` is not the
distance to the next 4-byte boundary when `L % 4 ∈ {1, 3}`. -/
theorem decodeString_pad_not_boundary :
    decodeString ⟨0, 0, 0, [5, 0, 0, 0, 97, 98, 99, 100, 0, 0, 0, 0], 0, [], 0⟩ =
      (.ok [97, 98, 99, 100], ⟨0, 0, 0, [5, 0, 0, 0, 97, 98, 99, 100, 0, 0, 0, 0], 10, [], 0⟩) ∧
    4 + (5 + 5 % 4) ≠ 4 + 4 * ((5 + 4 - 1) / 4) := ⟨rfl, by decide⟩

/-- C3: sequence decoding is not implemented.  For every element type
`t` and every buffer, decoding into a slice target (and likewise into a
`NewID` target, also listed as supported by the doc comment) hits the
`default` branch and panics without reading any count: no 4-byte count
is consumed and no elements are decoded. -/
theorem decode_slice_panics (t : ArgType) (dest : List Nat) (b : MessageBuffer) :
    Decode (.slice t) dest b = (.error .panicUnexpectedType, b) ∧
    Decode .newID dest b = (.error .panicUnexpectedType, b) := ⟨rfl, rfl⟩

/-- C4: opaque byte-array decoding is not independent of the
caller-supplied destination slice.  With length prefix `L = 4`: a `nil`
destination makes `slices.Grow` panic on a negative count instead of
returning the 4 field bytes, and an 8-byte destination makes the decoder
consume `4 + 8 = 12` payload bytes instead of `4 + (4 + 4 % 4) = 8`. -/
theorem decodeBytes_depends_on_dest :
    decodeBytes [] ⟨0, 0, 0, [4, 0, 0, 0, 1, 2, 3, 4], 0, [], 0⟩ =
      (.error .panicGrowNeg, ⟨0, 0, 0, [4, 0, 0, 0, 1, 2, 3, 4], 4, [], 0⟩) ∧
    decodeBytes [9, 9, 9, 9, 9, 9, 9, 9] ⟨0, 0, 0, [4, 0, 0, 0, 1, 2, 3, 4, 5, 6, 7, 8], 0, [], 0⟩ =
      (.ok [1, 2, 3, 4], ⟨0, 0, 0, [4, 0, 0, 0, 1, 2, 3, 4, 5, 6, 7, 8], 12, [], 0⟩) ∧
    (12 : Nat) ≠ 4 + (4 + 4 % 4) := ⟨rfl, rfl, by decide⟩

/-- C5: a string decode with length prefix `0` does not fail with an
error: the `uint32` index `length - 1` underflows to `2^32 - 1` and the
Go string index panics (index out of range), i.e. the code crashes. -/
theorem decodeString_zero_length_panics :
    decodeString ⟨0, 0, 0, [0, 0, 0, 0], 0, [], 0⟩ =
      (.error .panicIndexOOB, ⟨0, 0, 0, [0, 0, 0, 0], 4, [], 0⟩) := rfl

/-- C6: the framer can successfully produce an envelope with
`declared_size < 8`.  A header with packed word `3` (size `0`, opcode
`3`) yields a successful empty-payload envelope of declared size `0`,
violating `declared_size ≥ 8` and `declared_size = 8 + payload length`;
for `declared_size = 16` with only 3 payload bytes available the short
read is, as claimed, a framing error. -/
theorem readMessage_small_size :
    ReadMessage [1, 0, 0, 0, 3, 0, 0, 0] [] = .ok (⟨1, 3, 0, [], 0, [], 0⟩, []) ∧
    ReadMessage [1, 0, 0, 0, 3, 0, 16, 0, 1, 2, 3] [] = .error .eof := ⟨rfl, rfl⟩

/-- C7: with descriptor list `[d0, d1]` and consumption index `0`, the
first file-descriptor decode returns `d0`, the second `d1`, and the
third fails with the descriptor-underflow error; in general a
file-descriptor decode returns `fds[fdindex]` and increments `fdindex`
exactly when `fdindex < |fds|`, and fails with the underflow error
exactly when no descriptors remain. -/
theorem decodeFile_order (b : MessageBuffer) (d0 d1 : Int)
    (hfds : b.fds = [d0, d1]) (hidx : b.fdindex = 0) :
    ((decodeFile b).1 = .ok d0 ∧
     (decodeFile (decodeFile b).2).1 = .ok d1 ∧
     (decodeFile (decodeFile (decodeFile b).2).2).1 = .error .noMoreFds) ∧
    ∀ b' : MessageBuffer,
      ((∀ h : b'.fdindex < b'.fds.length,
          decodeFile b' = (.ok b'.fds[b'.fdindex], { b' with fdindex := b'.fdindex + 1 })) ∧
       ((decodeFile b').1 = .error .noMoreFds ↔ b'.fds.length ≤ b'.fdindex)) := by
  constructor
  · simp [decodeFile, hfds, hidx]
  · intro b'
    constructor
    · intro h
      simp [decodeFile, h]
    · unfold decodeFile
      split
      · next h => simp; omega
      · next h => simp; omega

/-- C7 witness: with descriptors `[33, 44]` the first decode returns
`33`. -/
theorem decodeFile_order_witness :
    (decodeFile ⟨0, 0, 0, [], 0, [33, 44], 0⟩).1 = .ok 33 :=
  (decodeFile_order ⟨0, 0, 0, [], 0, [33, 44], 0⟩ 33 44 rfl rfl).1.1

/-- C8: for every `n` in the signed 24-bit range, `FixedInt n` has
integer part `n` and fractional part `0`, and `FixedInt 5` converts to
the (exactly representable) floating value `5`. -/
theorem fixedInt_parts (n : Int) (h1 : -(2 ^ 23) ≤ n) (h2 : n < 2 ^ 23) :
    FixedIntPart (FixedInt n) = n ∧ FixedFrac (FixedInt n) = 0 ∧
    FixedFloatVal (FixedInt 5) = 5 := by
  have hw : FixedInt n = n * 256 := by
    simp only [FixedInt, wrap32, wrap64]
    omega
  refine ⟨?_, ?_, ?_⟩
  · rw [hw]; simp only [FixedIntPart]; omega
  · rw [hw]; simp only [FixedFrac]; omega
  · have h5 : FixedInt 5 = 5 * 256 := by
      simp only [FixedInt, wrap32, wrap64]; omega
    rw [h5]
    simp only [FixedFloatVal, FixedIntPart, FixedFrac]
    norm_num

/-- C8 witness: `FixedInt 5` has integer part `5` and fractional part
`0`. -/
theorem fixedInt_parts_witness :
    FixedIntPart (FixedInt 5) = 5 ∧ FixedFrac (FixedInt 5) = 0 :=
  ⟨(fixedInt_parts 5 (by decide) (by decide)).1, (fixedInt_parts 5 (by decide) (by decide)).2.1⟩

/-- Or-ing bits below the `2^8` position into a multiple of `2^8` is
addition. -/
theorem lor_low_bits (m r : Nat) (h : r < 2 ^ 8) :
    Nat.lor (2 ^ 8 * m) r = 2 ^ 8 * m + r := by
  apply Nat.eq_of_testBit_eq
  intro i
  have h1 := Nat.testBit_mul_pow_two_add m h i
  have h2 := Nat.testBit_mul_pow_two_add m (show 0 < 2 ^ 8 by norm_num) i
  rw [Nat.add_zero] at h2
  have hlor : Nat.testBit (Nat.lor (2 ^ 8 * m) r) i =
      (Nat.testBit (2 ^ 8 * m) i || Nat.testBit r i) := Nat.testBit_or _ _ _
  rw [hlor, h1, h2]
  by_cases hi : i < 8
  · simp [hi]
  · have hr : Nat.testBit r i = false :=
      Nat.testBit_lt_two_pow (lt_of_lt_of_le h (Nat.pow_le_pow_right (by norm_num) (by omega)))
    simp [hi, hr]

/-- The fractional remainder left by truncation toward zero is below `1`
in absolute value. -/
theorem abs_sub_ratTrunc_lt_one (q : ℚ) : |q - (ratTrunc q : ℚ)| < 1 := by
  unfold ratTrunc
  split
  · next h =>
    rw [abs_of_nonneg (sub_nonneg.mpr (Int.floor_le q))]
    have := Int.lt_floor_add_one q
    linarith
  · next h =>
    rw [abs_of_nonpos (sub_nonpos.mpr (Int.le_ceil q))]
    have := Int.ceil_lt_add_one q
    linarith

/-- Go's 64-bit `|` of a multiple of 256 (in range) with a value in
`[0, 256)` is addition. -/
theorem goOr64_add (x b : Int) (hx256 : x % 256 = 0)
    (hxlo : -(2 ^ 63) ≤ x) (hxhi : x < 2 ^ 63) (hb0 : 0 ≤ b) (hb : b < 256) :
    goOr64 x b = x + b := by
  unfold goOr64 twos64 ofTwos64
  have hx64 : x % 2 ^ 64 = if 0 ≤ x then x else x + 2 ^ 64 := by
    split <;> omega
  have hb64 : b % 2 ^ 64 = b := by omega
  rw [hb64]
  by_cases h0 : 0 ≤ x
  · rw [hx64, if_pos h0]
    have hm : ∃ m, x.toNat = 2 ^ 8 * m := by
      refine ⟨x.toNat / 256, ?_⟩
      omega
    obtain ⟨m, hm⟩ := hm
    rw [hm, lor_low_bits m b.toNat (by omega)]
    have : 2 ^ 8 * m + b.toNat < 2 ^ 63 := by omega
    rw [if_pos this]
    omega
  · rw [hx64, if_neg h0]
    have hm : ∃ m, (x + 2 ^ 64).toNat = 2 ^ 8 * m := by
      refine ⟨(x + 2 ^ 64).toNat / 256, ?_⟩
      omega
    obtain ⟨m, hm⟩ := hm
    rw [hm, lor_low_bits m b.toNat (by omega)]
    have : ¬ (2 ^ 8 * m + b.toNat < 2 ^ 63) := by omega
    rw [if_neg this]
    omega

/-- C9 (amended): for every `q` whose truncated integer part fits the
24-bit range, `FixedFloat q` packs the integer part `ratTrunc q`
(truncation toward zero, as `math.Modf` does) shifted left 8 bits, with
low 8 bits equal to the TRUNCATED — not rounded — value
`⌊|q - trunc(q)| * 256⌋`, because the Go conversion `int(...)`
truncates. -/
theorem fixedFloat_truncates (q : ℚ)
    (h1 : -(2 ^ 23) ≤ ratTrunc q) (h2 : ratTrunc q < 2 ^ 23) :
    FixedFloat q = 256 * ratTrunc q + ⌊|q - (ratTrunc q : ℚ)| * 256⌋ ∧
    FixedIntPart (FixedFloat q) = ratTrunc q ∧
    FixedFrac (FixedFloat q) = ⌊|q - (ratTrunc q : ℚ)| * 256⌋ := by
  have habs := abs_sub_ratTrunc_lt_one q
  have hf0 : 0 ≤ ⌊|q - (ratTrunc q : ℚ)| * 256⌋ :=
    Int.floor_nonneg.mpr (by positivity)
  have hf1 : ⌊|q - (ratTrunc q : ℚ)| * 256⌋ < 256 := by
    apply Int.floor_lt.mpr
    push_cast
    nlinarith [abs_nonneg (q - (ratTrunc q : ℚ))]
  have hw64 : wrap64 (ratTrunc q * 256) = ratTrunc q * 256 := by
    unfold wrap64; omega
  have hmain : FixedFloat q = 256 * ratTrunc q + ⌊|q - (ratTrunc q : ℚ)| * 256⌋ := by
    show wrap32 (goOr64 (wrap64 (ratTrunc q * 256)) ⌊|q - (ratTrunc q : ℚ)| * 256⌋) =
      256 * ratTrunc q + ⌊|q - (ratTrunc q : ℚ)| * 256⌋
    rw [hw64, goOr64_add (ratTrunc q * 256) _ (by omega) (by omega) (by omega) hf0 hf1]
    unfold wrap32
    omega
  refine ⟨hmain, ?_, ?_⟩
  · rw [hmain]; unfold FixedIntPart; omega
  · rw [hmain]; unfold FixedFrac; omega

/-- C9 witness: at `q = 3/1024` the packed value is
`256 * 0 + ⌊3/4⌋`. -/
theorem fixedFloat_truncates_witness :
    FixedFloat (3 / 1024 : ℚ) = 256 * ratTrunc (3 / 1024 : ℚ) +
      ⌊|(3 / 1024 : ℚ) - (ratTrunc (3 / 1024 : ℚ) : ℚ)| * 256⌋ :=
  (fixedFloat_truncates (3 / 1024 : ℚ) (by norm_num [ratTrunc]) (by norm_num [ratTrunc])).1

/-- C9 counterexample: at `x = 3/1024` (exactly representable in
`float64`) the fractional remainder is `3/1024`, and `|f| * 256 = 3/4`:
the code truncates it to `0`, while the claimed rounding gives `1` —
so the claim's formula does not match the code. -/
theorem fixedFloat_not_rounded :
    FixedFloat (3 / 1024 : ℚ) = 0 ∧ FixedFloatSpec (3 / 1024 : ℚ) = 1 ∧
    FixedFloat (3 / 1024 : ℚ) ≠ FixedFloatSpec (3 / 1024 : ℚ) := by
  have htr : ratTrunc (3 / 1024 : ℚ) = 0 := by
    unfold ratTrunc
    rw [if_pos (by norm_num)]
    norm_num
  have hcode : FixedFloat (3 / 1024 : ℚ) = 0 := by
    show wrap32 (goOr64 (wrap64 (ratTrunc (3 / 1024 : ℚ) * 256))
      ⌊|(3 / 1024 : ℚ) - (ratTrunc (3 / 1024 : ℚ) : ℚ)| * 256⌋) = 0
    rw [htr]
    have habs : |(3 / 1024 : ℚ) - ((0 : Int) : ℚ)| * 256 = 3 / 4 := by
      rw [abs_of_nonneg (by norm_num : (0 : ℚ) ≤ 3 / 1024 - ((0 : Int) : ℚ))]
      norm_num
    have hfl : ⌊|(3 / 1024 : ℚ) - ((0 : Int) : ℚ)| * 256⌋ = 0 := by
      rw [habs]
      norm_num
    rw [hfl]
    decide
  have hspec : FixedFloatSpec (3 / 1024 : ℚ) = 1 := by
    show wrap32 (goOr64 (wrap64 (ratTrunc (3 / 1024 : ℚ) * 256))
      (round (|(3 / 1024 : ℚ) - (ratTrunc (3 / 1024 : ℚ) : ℚ)| * 256))) = 1
    rw [htr]
    have habs : |(3 / 1024 : ℚ) - ((0 : Int) : ℚ)| * 256 = 3 / 4 := by
      rw [abs_of_nonneg (by norm_num : (0 : ℚ) ≤ 3 / 1024 - ((0 : Int) : ℚ))]
      norm_num
    have hrd : round (|(3 / 1024 : ℚ) - ((0 : Int) : ℚ)| * 256) = 1 := by
      rw [habs, round_eq]
      norm_num
    rw [hrd]
    decide
  exact ⟨hcode, hspec, by rw [hcode, hspec]; decide⟩

/-- C10: a file-descriptor decode touches nothing in the buffer except
the consumption index: on success the sender, opcode, declared size,
payload bytes, payload cursor and descriptor list are unchanged and
`fdindex` grows by exactly one; on descriptor underflow the whole buffer
is returned unchanged. -/
theorem decodeFile_frame_effect (b : MessageBuffer) :
    (b.fdindex < b.fds.length →
      ((decodeFile b).2.sender = b.sender ∧ (decodeFile b).2.op = b.op ∧
       (decodeFile b).2.size = b.size ∧ (decodeFile b).2.data = b.data ∧
       (decodeFile b).2.pos = b.pos ∧ (decodeFile b).2.fds = b.fds ∧
       (decodeFile b).2.fdindex = b.fdindex + 1)) ∧
    (b.fds.length ≤ b.fdindex →
      ((decodeFile b).2 = b ∧ (decodeFile b).1 = .error .noMoreFds)) := by
  constructor
  · intro h
    simp [decodeFile, h]
  · intro h
    have : ¬ b.fdindex < b.fds.length := by omega
    simp [decodeFile, this]

/-- C10 witness: a success bumps `fdindex` to `1`; an underflow leaves
the concrete buffer untouched. -/
theorem decodeFile_frame_effect_witness :
    (decodeFile ⟨1, 2, 3, [7], 4, [9], 0⟩).2.fdindex = 1 ∧
    (decodeFile ⟨1, 2, 3, [7], 4, [9], 1⟩).2 = ⟨1, 2, 3, [7], 4, [9], 1⟩ :=
  ⟨((decodeFile_frame_effect ⟨1, 2, 3, [7], 4, [9], 0⟩).1 (by decide)).2.2.2.2.2.2,
   ((decodeFile_frame_effect ⟨1, 2, 3, [7], 4, [9], 1⟩).2 (by decide)).1⟩

end WL
